import Mathlib

/-!
Verification of the searchAgent repository's core: the tool-calling agent
loop (`react_agent.py`), the conversation memory (`memory_manager.py`) and
the search tool wrapper (`search_tools.py`), shallowly embedded in Lean.

The language model, the search provider, the clock backend and the
regex-based fallback text parser are opaque collaborators of the core; they
are modelled as oracles supplied in an environment record, and every theorem
quantifies over all of their behaviours. A model invocation that raises is
an `Except.error`.
-/

namespace SearchAgent

/-- Roles of the persisted JSON records in `chat_history.json`
(`memory_manager.py`, `_save_memory` / `_load_memory`). -/
inductive Role where
  | user
  | assistant
  | system
  deriving DecidableEq

/-- One entry of the persisted `messages` array in `chat_history.json`. -/
structure Record where
  role : Role
  content : String
  deriving DecidableEq

/-- One structured tool call carried by a model response
(`response.tool_calls` elements in `react_agent.py`): a name, the optional
`query` and `timezone` arguments of its `args` dict, and its id. -/
structure ToolCall where
  name : String
  argQuery : Option String
  argTimezone : Option String
  id : String
  deriving DecidableEq

/-- A response of the model capability: its text `content` and its list of
structured `tool_calls` (empty when the model answers directly). -/
structure ModelResponse where
  content : String
  tool_calls : List ToolCall
  deriving DecidableEq

/-- LangChain messages as used by the repository: `SystemMessage`,
`HumanMessage`, `AIMessage`, the raw model response object appended to the
working window (`messages.append(response)`), and `ToolMessage`. -/
inductive Msg where
  | system (content : String)
  | human (content : String)
  | ai (content : String)
  | aiToolMsg (r : ModelResponse)
  | toolResult (content : String) (tool_call_id : String)
  deriving DecidableEq

/-- Python list slice `l[-n:]`: the last `n` elements of `l`, except that
`l[-0:]` is `l[0:]`, i.e. the whole list. -/
def pyTail (n : Nat) (l : List α) : List α :=
  if n = 0 then l else l.drop (l.length - n)

/-- `MemoryManager.get_memory` (memory_manager.py lines 55-60): if the log
holds more than `max_length * 2` messages return the slice
`messages[-(max_length * 2):]`, else return the whole log. -/
def get_memory (max_length : Nat) (messages : List Msg) : List Msg :=
  if messages.length > max_length * 2 then pyTail (max_length * 2) messages
  else messages

/-- The per-message serialization performed by `MemoryManager._save_memory`:
`HumanMessage` → role `user`, `AIMessage` → role `assistant`,
`SystemMessage` → role `system`; any other message kind is skipped. -/
def serializeMsg : Msg → Option Record
  | .human c => some ⟨.user, c⟩
  | .ai c => some ⟨.assistant, c⟩
  | .system c => some ⟨.system, c⟩
  | _ => none

/-- `MemoryManager._save_memory` (memory_manager.py lines 72-92): the
`messages` array written to `chat_history.json`. -/
def save_memory (messages : List Msg) : List Record :=
  messages.filterMap serializeMsg

/-- One step of the replay loop of `MemoryManager._load_memory`: `user`
records append a `HumanMessage`, `assistant` records append an `AIMessage`,
and `system` records are dropped (no branch for them). -/
def loadStep (acc : List Msg) (r : Record) : List Msg :=
  match r.role with
  | .user => acc ++ [Msg.human r.content]
  | .assistant => acc ++ [Msg.ai r.content]
  | .system => acc

/-- `MemoryManager._load_memory` (memory_manager.py lines 94-109): replay the
persisted records into a fresh message log, keeping only `user` and
`assistant` roles. -/
def load_memory (records : List Record) : List Msg :=
  records.foldl loadStep []

/-- The state owned by a `MemoryManager` with `save_to_file = True`: its
in-memory message list and the content of the persisted `chat_history.json`
`messages` array (each mutation rewrites the whole file). -/
structure MemState where
  messages : List Msg
  persisted : List Record
  deriving DecidableEq

/-- A `MemoryManager` constructed with no pre-existing history file. -/
def emptyMem : MemState := { messages := [], persisted := [] }

/-- `MemoryManager.add_user_message` (memory_manager.py lines 43-47): append
a `HumanMessage`, then persist the whole log. -/
def add_user_message (st : MemState) (message : String) : MemState :=
  let ms := st.messages ++ [Msg.human message]
  { messages := ms, persisted := save_memory ms }

/-- `MemoryManager.add_ai_message` (memory_manager.py lines 49-53): append an
`AIMessage`, then persist the whole log. -/
def add_ai_message (st : MemState) (message : String) : MemState :=
  let ms := st.messages ++ [Msg.ai message]
  { messages := ms, persisted := save_memory ms }

/-- A sequence of user (`true`) / assistant (`false`) appends applied to a
memory instance in order. -/
def appendAll (ops : List (Bool × String)) (st : MemState) : MemState :=
  ops.foldl
    (fun st op =>
      if op.1 then add_user_message st op.2 else add_ai_message st op.2)
    st

/-- Constructing a fresh `MemoryManager` over an existing history file: the
constructor calls `_load_memory`, which replays the persisted records; the
file itself is left unchanged. -/
def hydrate (records : List Record) : MemState :=
  { messages := load_memory records, persisted := records }

/-- `SearchToolWrapper.search` (search_tools.py lines 65-70), with the
underlying provider run modelled by its outcome: a returned result text or a
raised exception message. The wrapper returns the provider text on success
and the string `"Search error: "` plus the exception detail on failure; it
is a total function, so it never raises. -/
def SearchToolWrapper.search (providerRun : Except String String) : String :=
  match providerRun with
  | .ok results => results
  | .error e => "Search error: " ++ e

/-- `SearchAgent.SYSTEM_PROMPT` (react_agent.py lines 19-50). -/
def SYSTEM_PROMPT : String :=
  "You are a helpful AI assistant with access to tools that help you provide accurate and timely information.\n\nAvailable Tools:\n1. search_web: Use when you need latest information, news, prices, weather, or any real-time data from the internet\n2. get_current_time: Use when you need to know the current date, time, or day of the week\n\nIMPORTANT Guidelines for Tool Usage:\n\nTime Tool - Use get_current_time when:\n- User asks about current time: \"现在几点？\" \"What time is it?\"\n- User asks about current date: \"今天几号？\" \"What\x27s today\x27s date?\"\n- User asks about day of week: \"今天星期几？\" \"What day is it?\"\n- User mentions \"today\", \"now\", \"latest\", \"newest\", \"recent\", \"this week\", \"this month\"\n- User asks about time in different timezones: \"纽约现在几点？\"\n- ANY query about current/latest information: ALWAYS get time first, then search\n  * \"What is the latest iPhone?\" → Get time first, then search \"latest iPhone [date]\"\n  * \"今天有什么新闻？\" → Get time first, then search \"[date] news\"\n  * \"Recent AI developments\" → Get time first, then search \"AI developments [date]\"\n\nSearch Tool - Use search_web when:\n- Need latest news, current events, or recent information\n- Need real-time data like prices, weather, stock prices\n- User asks about something you don\x27t have up-to-date knowledge about\n- User explicitly asks to search or look up information\n\nDirect Answer - Answer directly when:\n- Question is about general knowledge that doesn\x27t change\n- Simple math, definitions, or common facts\n- Personal opinions or creative tasks\n\nAlways use tools proactively when needed to provide accurate, current information.\nRespond naturally in the same language as the user\x27s question."

/-- `max_searches = 2` (react_agent.py line 231): the per-`query` search
budget cap. -/
def max_searches : Nat := 2

/-- The outermost exception handler's return value (react_agent.py line
368). -/
def errorReply (e : String) : String :=
  "Sorry, an error occurred while processing your request: " ++ e

/-- The opaque collaborators of one `query` run.

`llm i` is the outcome of the `i`-th `self.llm.invoke` call of the run
(counting from 0): a returned response, or `Except.error` for a raised
exception. `searchRun i` is the text returned by the `i`-th
`self.search_tool.search` call (total: see `SearchToolWrapper.search`);
`timeRun i` likewise for `self.time_tool.get_current_time` (also total).
`parse_text_tool_call` models the regex-based fallback parser
`SearchAgent._parse_text_tool_call` as an opaque pure function from the
response content to the extracted search query, if any; theorems quantify
over all its behaviours, so they hold for the source's concrete regexes. -/
structure AgentEnv where
  llm : Nat → Except String ModelResponse
  searchRun : Nat → String
  timeRun : Nat → String
  parse_text_tool_call : String → Option String

/-- The mutable state of one `query` run: the memory manager, the local
`messages` window, the `search_count` counter, and ghost traces — one entry
per `self.llm.invoke` call recording (tools offered with tool-choice auto?,
`search_count` at that moment), one entry per search executor call
(recording the query argument), one entry per time tool call (recording the
timezone argument). -/
structure AgentState where
  mem : MemState
  window : List Msg
  llmTrace : List (Bool × Nat)
  searchTrace : List String
  timeTrace : List String
  search_count : Nat
  deriving DecidableEq

/-- Outcome of the `for tool_call in response.tool_calls` scan
(react_agent.py lines 251-315): the loop breaks at the first `search_web`
call (in budget: execute, out of budget: skip everything) or at the first
`get_current_time` call; calls with any other name fall through to the next
element. -/
inductive ScanOutcome where
  | searchHit (tc : ToolCall)
  | searchBlocked (tc : ToolCall)
  | timeHit (tc : ToolCall)
  | noTool
  deriving DecidableEq

/-- The branch structure of the `for tool_call in response.tool_calls` loop:
which break (if any) is reached, given the current `search_count`. -/
def scan_tool_calls (search_count : Nat) : List ToolCall → ScanOutcome
  | [] => .noTool
  | tc :: rest =>
    if tc.name = "search_web" then
      if search_count < max_searches then .searchHit tc else .searchBlocked tc
    else if tc.name = "get_current_time" then .timeHit tc
    else scan_tool_calls search_count rest

/-- Processing of one model response inside the loop (react_agent.py lines
246-339): the structured tool-call branch when `response.tool_calls` is
non-empty, otherwise the fallback text branch guarded by
`search_count < max_searches and response.content` and by the truthiness of
the parsed query. Returns the updated state and the `search_performed`
flag. -/
def dispatch (env : AgentEnv) (st : AgentState) (response : ModelResponse) :
    AgentState × Bool :=
  if response.tool_calls ≠ [] then
    match scan_tool_calls st.search_count response.tool_calls with
    | .searchHit tc =>
      let search_query := tc.argQuery.getD ""
      let search_results := env.searchRun st.searchTrace.length
      ({ st with
          window := st.window ++
            [Msg.aiToolMsg response,
             Msg.toolResult ("Search results: " ++ search_results) tc.id],
          search_count := st.search_count + 1,
          searchTrace := st.searchTrace ++ [search_query] }, true)
    | .searchBlocked _ => (st, false)
    | .timeHit tc =>
      let timezone := tc.argTimezone.getD "Asia/Shanghai"
      let time_result := env.timeRun st.timeTrace.length
      ({ st with
          window := st.window ++
            [Msg.aiToolMsg response, Msg.toolResult time_result tc.id],
          timeTrace := st.timeTrace ++ [timezone] }, true)
    | .noTool => (st, false)
  else if st.search_count < max_searches ∧ response.content ≠ "" then
    match env.parse_text_tool_call response.content with
    | some search_query =>
      if search_query ≠ "" then
        let search_results := env.searchRun st.searchTrace.length
        ({ st with
            window := st.window ++
              [Msg.aiToolMsg response,
               Msg.ai ("\nSearch results: " ++ search_results ++
                 "\n\nBased on these results, please provide the answer:")],
            search_count := st.search_count + 1,
            searchTrace := st.searchTrace ++ [search_query] }, true)
      else (st, false)
    | none => (st, false)
  else (st, false)

/-- Result of the body of `query` inside the try block: a returned answer,
or an exception propagating to the outermost handler. Both carry the state
at that moment. -/
inductive QueryOutcome where
  | answered (st : AgentState) (answer : String)
  | failed (st : AgentState) (err : String)
  deriving DecidableEq

/-- The state carried by a `QueryOutcome`. -/
def QueryOutcome.state : QueryOutcome → AgentState
  | .answered st _ => st
  | .failed st _ => st

/-- The `while iteration < max_iterations` loop of `query` (react_agent.py
lines 233-351) followed by the post-loop no-tool invocation (lines 353-360),
structured by the remaining number of iterations. Each cycle invokes the
model with the tool registry and `tool_choice="auto"` (trace flag `true`);
the post-loop invocation passes no tools (trace flag `false`). A raised
model exception becomes a `failed` outcome for the outer handler. -/
def query_loop (env : AgentEnv) : Nat → AgentState → QueryOutcome
  | 0, st =>
    let i := st.llmTrace.length
    let st := { st with llmTrace := st.llmTrace ++ [(false, st.search_count)] }
    match env.llm i with
    | .error e => .failed st e
    | .ok r =>
      let st := { st with mem := add_ai_message st.mem r.content }
      .answered st r.content
  | n + 1, st =>
    let i := st.llmTrace.length
    let st := { st with llmTrace := st.llmTrace ++ [(true, st.search_count)] }
    match env.llm i with
    | .error e => .failed st e
    | .ok response =>
      let p := dispatch env st response
      if p.2 then query_loop env n p.1
      else
        let st := { p.1 with mem := add_ai_message p.1.mem response.content }
        .answered st response.content

/-- The state at the top of the loop of `query` (react_agent.py lines
209-231): history read via `get_memory`, the user message appended (and
persisted) to memory, the window built as system prompt + last 6 history
messages + the new user message, counters zeroed. -/
def init_state (max_length : Nat) (mem0 : MemState) (user_input : String) :
    AgentState :=
  let chat_history := get_memory max_length mem0.messages
  { mem := add_user_message mem0 user_input,
    window := [Msg.system SYSTEM_PROMPT] ++ pyTail 6 chat_history ++
      [Msg.human user_input],
    llmTrace := [],
    searchTrace := [],
    timeTrace := [],
    search_count := 0 }

/-- `SearchAgent.query` (react_agent.py lines 198-368), for an agent whose
memory manager holds `mem0` and was built with `max_length`. Returns the
final agent state (memory, window, traces) and the returned string: the
answer, or the apology string produced by the outermost exception
handler. -/
def query (env : AgentEnv) (max_iterations max_length : Nat)
    (mem0 : MemState) (user_input : String) : AgentState × String :=
  match query_loop env max_iterations (init_state max_length mem0 user_input) with
  | .answered st answer => (st, answer)
  | .failed st e => (st, errorReply e)

/-! ### Helper lemmas about the memory manager -/

/-- A message is a `HumanMessage` or an `AIMessage`. -/
def userOrAssistant : Msg → Bool
  | .human _ => true
  | .ai _ => true
  | _ => false

lemma loadStep_eq (acc : List Msg) (r : Record) :
    loadStep acc r = acc ++ loadStep [] r := by
  rcases r with ⟨role, c⟩
  cases role <;> simp [loadStep]

lemma foldl_loadStep (rs : List Record) (acc : List Msg) :
    rs.foldl loadStep acc = acc ++ rs.foldl loadStep [] := by
  induction rs generalizing acc with
  | nil => simp
  | cons r rs ih =>
    rw [List.foldl_cons, List.foldl_cons, ih (loadStep acc r),
      ih (loadStep [] r), loadStep_eq acc r, List.append_assoc]

lemma load_memory_cons (r : Record) (rs : List Record) :
    load_memory (r :: rs) = loadStep [] r ++ load_memory rs := by
  show (r :: rs).foldl loadStep [] = _
  rw [List.foldl_cons, foldl_loadStep]
  rfl

lemma load_save_userOrAssistant (ms : List Msg)
    (h : ∀ m ∈ ms, userOrAssistant m = true) :
    load_memory (save_memory ms) = ms := by
  induction ms with
  | nil => rfl
  | cons m ms ih =>
    have hm := h m (List.mem_cons_self m ms)
    have hrest : ∀ x ∈ ms, userOrAssistant x = true := fun x hx =>
      h x (List.mem_cons_of_mem m hx)
    cases m with
    | human c =>
      simp only [save_memory, List.filterMap_cons, serializeMsg] at *
      rw [load_memory_cons, ih hrest]
      rfl
    | ai c =>
      simp only [save_memory, List.filterMap_cons, serializeMsg] at *
      rw [load_memory_cons, ih hrest]
      rfl
    | system c => simp [userOrAssistant] at hm
    | aiToolMsg r => simp [userOrAssistant] at hm
    | toolResult c i => simp [userOrAssistant] at hm

lemma load_memory_no_system (records : List Record) (c : String) :
    Msg.system c ∉ load_memory records := by
  induction records with
  | nil => simp [load_memory]
  | cons r rs ih =>
    rw [load_memory_cons]
    intro hmem
    rcases List.mem_append.mp hmem with h | h
    · rcases r with ⟨role, rc⟩
      cases role <;> simp [loadStep] at h
    · exact ih h

lemma load_memory_filter (records : List Record) :
    load_memory records
      = load_memory (records.filter fun r => decide (r.role ≠ Role.system)) := by
  induction records with
  | nil => rfl
  | cons r rs ih =>
    rcases r with ⟨role, c⟩
    cases role with
    | user =>
      rw [load_memory_cons, List.filter_cons_of_pos (by simp),
        load_memory_cons, ih]
    | assistant =>
      rw [load_memory_cons, List.filter_cons_of_pos (by simp),
        load_memory_cons, ih]
    | system =>
      rw [load_memory_cons, List.filter_cons_of_neg (by simp)]
      simpa [loadStep] using ih

lemma appendAll_inv (ops : List (Bool × String)) (st : MemState)
    (h1 : ∀ m ∈ st.messages, userOrAssistant m = true)
    (h2 : st.persisted = save_memory st.messages) :
    (∀ m ∈ (appendAll ops st).messages, userOrAssistant m = true) ∧
    (appendAll ops st).persisted = save_memory (appendAll ops st).messages := by
  induction ops generalizing st with
  | nil => exact ⟨h1, h2⟩
  | cons op ops ih =>
    rw [appendAll]
    rcases op with ⟨b, s⟩
    cases b
    · refine ih (add_ai_message st s) ?_ rfl
      intro m hm
      rcases List.mem_append.mp hm with h | h
      · exact h1 m h
      · simp only [List.mem_singleton] at h
        subst h
        rfl
    · refine ih (add_user_message st s) ?_ rfl
      intro m hm
      rcases List.mem_append.mp hm with h | h
      · exact h1 m h
      · simp only [List.mem_singleton] at h
        subst h
        rfl

/-! ### The claims about memory and the search wrapper -/

/-- C5: for every conversation log and every configured positive
`max_length` (default 10), `get_memory` returns at most `max_length * 2`
messages, and the returned sequence is exactly the most-recent suffix of the
full log (a suffix of length `min (max_length * 2) (length of the log)`),
hence order-preserving, oldest first. -/
theorem getWindow_bounded_suffix (max_length : Nat) (h : 1 ≤ max_length)
    (messages : List Msg) :
    (get_memory max_length messages).length ≤ max_length * 2 ∧
    get_memory max_length messages <:+ messages ∧
    (get_memory max_length messages).length
      = min (max_length * 2) messages.length := by
  unfold get_memory
  by_cases hlen : messages.length > max_length * 2
  · rw [if_pos hlen]
    unfold pyTail
    rw [if_neg (by omega)]
    refine ⟨?_, List.drop_suffix _ _, ?_⟩ <;>
      simp only [List.length_drop] <;> omega
  · rw [if_neg hlen]
    exact ⟨by omega, List.suffix_refl _, by omega⟩

/-- Witness for C5 at `max_length = 1` on a three-message log. -/
theorem getWindow_bounded_suffix_witness :
    (1 ≤ 1) ∧
    ((get_memory 1 [Msg.human "a", Msg.ai "b", Msg.human "c"]).length ≤ 1 * 2 ∧
     get_memory 1 [Msg.human "a", Msg.ai "b", Msg.human "c"]
       <:+ [Msg.human "a", Msg.ai "b", Msg.human "c"] ∧
     (get_memory 1 [Msg.human "a", Msg.ai "b", Msg.human "c"]).length
       = min (1 * 2) [Msg.human "a", Msg.ai "b", Msg.human "c"].length) :=
  ⟨by decide,
   getWindow_bounded_suffix 1 (by decide) [Msg.human "a", Msg.ai "b", Msg.human "c"]⟩

/-- C6: appending any sequence of user/assistant messages to a fresh memory
instance and re-hydrating a fresh instance from the persisted records
reproduces the same message log (hence the same `get_memory` window for
every `max_length`); and hydration from any persisted records yields no
system message — the loaded log equals the load of the records with all
system entries removed. -/
theorem memory_roundtrip_drops_system (ops : List (Bool × String)) (k : Nat)
    (records : List Record) :
    (hydrate (appendAll ops emptyMem).persisted).messages
      = (appendAll ops emptyMem).messages ∧
    get_memory k (hydrate (appendAll ops emptyMem).persisted).messages
      = get_memory k (appendAll ops emptyMem).messages ∧
    (∀ c, Msg.system c ∉ load_memory records) ∧
    load_memory records
      = load_memory (records.filter fun r => decide (r.role ≠ Role.system)) := by
  obtain ⟨h1, h2⟩ := appendAll_inv ops emptyMem (by simp [emptyMem]) rfl
  have hround : (hydrate (appendAll ops emptyMem).persisted).messages
      = (appendAll ops emptyMem).messages := by
    show load_memory (appendAll ops emptyMem).persisted = _
    rw [h2]
    exact load_save_userOrAssistant _ h1
  exact ⟨hround, by rw [hround], fun c => load_memory_no_system records c,
    load_memory_filter records⟩

/-- C7: the search wrapper never raises (it is a total function of the
provider outcome); on provider success it returns the provider's text
verbatim, and on a provider exception it returns the fixed `"Search error"`
marker followed by the failure detail. -/
theorem search_wrapper_total_contract :
    (∀ results : String, SearchToolWrapper.search (Except.ok results) = results) ∧
    (∀ e : String,
      SearchToolWrapper.search (Except.error e) = "Search error: " ++ e) :=
  ⟨fun _ => rfl, fun _ => rfl⟩

/-! ### Helper lemmas about the agent loop -/

lemma scan_searchHit_lt {c : Nat} {l : List ToolCall} {tc : ToolCall}
    (h : scan_tool_calls c l = .searchHit tc) : c < max_searches := by
  induction l with
  | nil => exact absurd h (by simp [scan_tool_calls])
  | cons t rest ih =>
    rw [scan_tool_calls] at h
    by_cases h1 : t.name = "search_web"
    · rw [if_pos h1] at h
      by_cases h2 : c < max_searches
      · exact h2
      · rw [if_neg h2] at h
        cases h
    · rw [if_neg h1] at h
      by_cases h3 : t.name = "get_current_time"
      · rw [if_pos h3] at h
        cases h
      · rw [if_neg h3] at h
        exact ih h

/-- `dispatch` leaves the memory manager untouched: intermediate tool
exchanges go only to the in-call window. -/
lemma dispatch_mem (env : AgentEnv) (st : AgentState) (r : ModelResponse) :
    (dispatch env st r).1.mem = st.mem := by
  unfold dispatch
  repeat' split
  all_goals rfl

/-- `dispatch` performs no model invocation. -/
lemma dispatch_llmTrace (env : AgentEnv) (st : AgentState) (r : ModelResponse) :
    (dispatch env st r).1.llmTrace = st.llmTrace := by
  unfold dispatch
  repeat' split
  all_goals rfl

/-- `dispatch` either leaves the search trace and counter unchanged, or —
only when the budget is not exhausted — executes exactly one search,
appending one trace entry and incrementing the counter. -/
lemma dispatch_search (env : AgentEnv) (st : AgentState) (r : ModelResponse) :
    ((dispatch env st r).1.searchTrace = st.searchTrace ∧
     (dispatch env st r).1.search_count = st.search_count) ∨
    (st.search_count < max_searches ∧
     (dispatch env st r).1.searchTrace.length = st.searchTrace.length + 1 ∧
     (dispatch env st r).1.search_count = st.search_count + 1) := by
  unfold dispatch
  split
  · split
    case _ tc heq =>
      right
      exact ⟨scan_searchHit_lt heq, by simp, rfl⟩
    case _ tc heq => left; exact ⟨rfl, rfl⟩
    case _ tc heq => left; exact ⟨rfl, rfl⟩
    case _ heq => left; exact ⟨rfl, rfl⟩
  · split
    · rename_i hguard
      split
      case _ q heq =>
        split
        · right
          exact ⟨hguard.1, by simp, rfl⟩
        · left; exact ⟨rfl, rfl⟩
      case _ heq => left; exact ⟨rfl, rfl⟩
    · left; exact ⟨rfl, rfl⟩

/-- Invariant tying the ghost trace of search-executor calls to the
`search_count` program variable and the budget cap. -/
def searchInv (st : AgentState) : Prop :=
  st.searchTrace.length = st.search_count ∧ st.search_count ≤ max_searches

lemma dispatch_searchInv (env : AgentEnv) (st : AgentState) (r : ModelResponse)
    (h : searchInv st) : searchInv (dispatch env st r).1 := by
  obtain ⟨ha, hb⟩ := h
  rcases dispatch_search env st r with ⟨h1, h2⟩ | ⟨hlt, h1, h2⟩ <;>
    constructor <;> simp [searchInv, h1, h2, ha] <;> omega

lemma query_loop_searchInv (env : AgentEnv) (n : Nat) (st : AgentState)
    (h : searchInv st) : searchInv ((query_loop env n st).state) := by
  induction n generalizing st with
  | zero =>
    rw [query_loop]
    rcases henv : env.llm st.llmTrace.length with e | r <;>
      simp only [henv] <;> exact h
  | succ n ih =>
    rw [query_loop]
    rcases henv : env.llm st.llmTrace.length with e | r
    · simp only [henv]
      exact h
    · simp only [henv]
      have h' : searchInv { st with llmTrace := st.llmTrace ++ [(true, st.search_count)] } := h
      have hd := dispatch_searchInv env _ r h'
      by_cases hp : (dispatch env { st with llmTrace := st.llmTrace ++ [(true, st.search_count)] } r).2
      · rw [if_pos hp]
        exact ih _ hd
      · rw [if_neg hp]
        exact hd

/-- During the loop, the only mutation of the memory manager is the single
`add_ai_message` of the final answer; an exception leaves it untouched. -/
lemma query_loop_mem (env : AgentEnv) (n : Nat) (st : AgentState) :
    (∀ st' a, query_loop env n st = .answered st' a →
      st'.mem = add_ai_message st.mem a) ∧
    (∀ st' e, query_loop env n st = .failed st' e → st'.mem = st.mem) := by
  induction n generalizing st with
  | zero =>
    constructor
    · intro st' a h
      rw [query_loop] at h
      rcases henv : env.llm st.llmTrace.length with e | r <;> simp only [henv] at h
      · cases h
      · cases h
        rfl
    · intro st' e h
      rw [query_loop] at h
      rcases henv : env.llm st.llmTrace.length with e' | r <;> simp only [henv] at h
      · cases h
        rfl
      · cases h
  | succ n ih =>
    constructor
    · intro st' a h
      rw [query_loop] at h
      rcases henv : env.llm st.llmTrace.length with e' | r <;> simp only [henv] at h
      · cases h
      · set st1 : AgentState :=
          { st with llmTrace := st.llmTrace ++ [(true, st.search_count)] } with hst1
        by_cases hp : (dispatch env st1 r).2
        · rw [if_pos hp] at h
          have := (ih (dispatch env st1 r).1).1 st' a h
          rw [this, dispatch_mem]
        · rw [if_neg hp] at h
          cases h
          rw [dispatch_mem]
    · intro st' e h
      rw [query_loop] at h
      rcases henv : env.llm st.llmTrace.length with e' | r <;> simp only [henv] at h
      · cases h
        rfl
      · set st1 : AgentState :=
          { st with llmTrace := st.llmTrace ++ [(true, st.search_count)] } with hst1
        by_cases hp : (dispatch env st1 r).2
        · rw [if_pos hp] at h
          have := (ih (dispatch env st1 r).1).2 st' e h
          rw [this, dispatch_mem]
        · rw [if_neg hp] at h
          cases h

/-- The model-invocation trace appended by the loop: some number `k ≤ n` of
tools-enabled invocations when the loop returns (or fails) from inside, or
exactly `n` tools-enabled invocations followed by the one tools-disabled
post-loop invocation. -/
lemma query_loop_flags (env : AgentEnv) (n : Nat) (st : AgentState) :
    (∃ k, k ≤ n ∧ ((query_loop env n st).state).llmTrace.map Prod.fst
        = st.llmTrace.map Prod.fst ++ List.replicate k true) ∨
    ((query_loop env n st).state).llmTrace.map Prod.fst
        = st.llmTrace.map Prod.fst ++ List.replicate n true ++ [false] := by
  induction n generalizing st with
  | zero =>
    right
    rw [query_loop]
    rcases henv : env.llm st.llmTrace.length with e | r <;>
      simp [henv, QueryOutcome.state]
  | succ n ih =>
    rw [query_loop]
    rcases henv : env.llm st.llmTrace.length with e' | r <;> simp only [henv]
    · left
      exact ⟨1, by omega, by simp [QueryOutcome.state]⟩
    · by_cases hp : (dispatch env
          { st with llmTrace := st.llmTrace ++ [(true, st.search_count)] } r).2
      · rw [if_pos hp]
        have htr : (dispatch env
            { st with llmTrace := st.llmTrace ++ [(true, st.search_count)] }
            r).1.llmTrace.map Prod.fst
            = st.llmTrace.map Prod.fst ++ [true] := by
          rw [dispatch_llmTrace]
          simp
        rcases ih (dispatch env
            { st with llmTrace := st.llmTrace ++ [(true, st.search_count)] }
            r).1 with ⟨k, hk, hmap⟩ | hmap
        · left
          refine ⟨k + 1, by omega, ?_⟩
          rw [hmap, htr, List.append_assoc]
          rfl
        · right
          rw [hmap, htr,
            List.append_assoc (st.llmTrace.map Prod.fst) [true]
              (List.replicate n true)]
          rfl
      · rw [if_neg hp]
        left
        refine ⟨1, by omega, ?_⟩
        simp [QueryOutcome.state, dispatch_llmTrace]

/-- The first component of `query`'s result is the state of the loop's
outcome. -/
lemma query_fst (env : AgentEnv) (mi ml : Nat) (mem0 : MemState) (u : String) :
    (query env mi ml mem0 u).1
      = (query_loop env mi (init_state ml mem0 u)).state := by
  unfold query
  cases h : query_loop env mi (init_state ml mem0 u) with
  | answered st a => rfl
  | failed st e => rfl

lemma init_state_mem (ml : Nat) (mem0 : MemState) (u : String) :
    (init_state ml mem0 u).mem = add_user_message mem0 u := rfl

lemma init_state_llmTrace (ml : Nat) (mem0 : MemState) (u : String) :
    (init_state ml mem0 u).llmTrace = [] := rfl

lemma query_eq_of_answered {env : AgentEnv} {mi ml : Nat} {mem0 : MemState}
    {u : String} {st : AgentState} {a : String}
    (h : query_loop env mi (init_state ml mem0 u) = .answered st a) :
    query env mi ml mem0 u = (st, a) := by
  unfold query
  rw [h]

lemma query_eq_of_failed {env : AgentEnv} {mi ml : Nat} {mem0 : MemState}
    {u : String} {st : AgentState} {e : String}
    (h : query_loop env mi (init_state ml mem0 u) = .failed st e) :
    query env mi ml mem0 u = (st, errorReply e) := by
  unfold query
  rw [h]

lemma query_loop_fail_first (env : AgentEnv) (n : Nat) (st : AgentState)
    (e : String) (h : env.llm st.llmTrace.length = .error e) :
    ∃ st', query_loop env n st = .failed st' e ∧ st'.mem = st.mem := by
  cases n <;> rw [query_loop] <;> rw [h] <;> exact ⟨_, rfl, rfl⟩

/-! ### The claims about the agent loop -/

/-- C1: in every `query` call, for every behaviour of the model, of the
search provider, of the clock and of the fallback parser, the search
executor is invoked at most 2 times: the trace of search-executor calls
never exceeds the cap `max_searches = 2`. -/
theorem search_executor_capped (env : AgentEnv) (mi ml : Nat)
    (mem0 : MemState) (u : String) :
    (query env mi ml mem0 u).1.searchTrace.length ≤ 2 := by
  have h0 : searchInv (init_state ml mem0 u) := ⟨rfl, Nat.zero_le _⟩
  obtain ⟨ha, hb⟩ := query_loop_searchInv env mi (init_state ml mem0 u) h0
  rw [query_fst, ha]
  exact hb

/-- The model stub that always issues one structured `search_web` tool
call, answering with empty content; search and time backends and the
fallback parser are fixed arbitrarily. -/
def searchToolCall : ToolCall :=
  { name := "search_web", argQuery := some "latest news", argTimezone := none,
    id := "call-1" }

def envAlwaysSearch : AgentEnv :=
  { llm := fun _ => .ok { content := "", tool_calls := [searchToolCall] },
    searchRun := fun _ => "result text",
    timeRun := fun _ => "time text",
    parse_text_tool_call := fun _ => none }

/-- C2 counterexample: running `query` with the always-search stub, the
model-invocation trace is `[(true, 0), (true, 1), (true, 2)]` — the third
invocation happens with the search counter already at the cap
(`search_count = 2 = max_searches`), yet the model is still invoked with
the tool registry and `tool_choice="auto"` (flag `true`). The code never
disables tool-choice inside the loop; budget exhaustion only discards the
requested call. -/
theorem third_invocation_still_offers_tools :
    (query envAlwaysSearch 5 10 emptyMem "news").1.llmTrace
      = [(true, 0), (true, 1), (true, 2)] ∧
    ∃ p ∈ (query envAlwaysSearch 5 10 emptyMem "news").1.llmTrace,
      max_searches ≤ p.2 ∧ p.1 = true :=
  ⟨rfl, (true, 2), by decide, by decide, rfl⟩

/-- C2 amended: every model invocation made inside the loop passes the tool
registry with `tool_choice="auto"` regardless of the search budget (trace
flag `true`); the only invocation made without tools is the single
post-loop forced one, which can only be the last invocation of the run. -/
theorem loop_invocations_always_offer_tools (env : AgentEnv) (mi ml : Nat)
    (mem0 : MemState) (u : String) :
    ∃ k, (query env mi ml mem0 u).1.llmTrace.map Prod.fst
        = List.replicate k true ∨
      (query env mi ml mem0 u).1.llmTrace.map Prod.fst
        = List.replicate k true ++ [false] := by
  rw [query_fst]
  rcases query_loop_flags env mi (init_state ml mem0 u) with ⟨k, _, hmap⟩ | hmap
  · exact ⟨k, Or.inl (by simpa [init_state_llmTrace] using hmap)⟩
  · exact ⟨mi, Or.inr (by simpa [init_state_llmTrace] using hmap)⟩

/-- C3 counterexample: with `max_iterations = 5` and the always-search
stub, `query` terminates after only 3 loop iterations — the two budgeted
searches plus the discarded third request — and returns that third
response's content (here the empty string) directly; no final no-tool model
invocation takes place (all three trace flags are `true`). -/
theorem always_search_stub_stops_early :
    (query envAlwaysSearch 5 10 emptyMem "news").2 = "" ∧
    (query envAlwaysSearch 5 10 emptyMem "news").1.llmTrace
      = [(true, 0), (true, 1), (true, 2)] ∧
    (query envAlwaysSearch 5 10 emptyMem "news").1.llmTrace.length ≠ 5 ∧
    (query envAlwaysSearch 5 10 emptyMem "news").1.searchTrace.length = 2 :=
  ⟨rfl, rfl, by decide, rfl⟩

/-- C3 amended: `query` always terminates (the embedding is a total
function); the model is invoked at most `max_iterations + 1` times, and
only a run that performs a tool in all `max_iterations` cycles reaches the
`max_iterations + 1`-st invocation, which is the forced no-tool one (final
trace flag `false`). An always-search stub instead stops after 3
iterations with possibly empty text (see the counterexample). -/
theorem query_iteration_bound (env : AgentEnv) (mi ml : Nat)
    (mem0 : MemState) (u : String) :
    (query env mi ml mem0 u).1.llmTrace.length ≤ mi + 1 ∧
    ((query env mi ml mem0 u).1.llmTrace.length = mi + 1 →
      (query env mi ml mem0 u).1.llmTrace.map Prod.fst
        = List.replicate mi true ++ [false]) := by
  rw [query_fst]
  rcases query_loop_flags env mi (init_state ml mem0 u) with ⟨k, hk, hmap⟩ | hmap
  · rw [init_state_llmTrace, List.map_nil, List.nil_append] at hmap
    have hlen : (query_loop env mi (init_state ml mem0 u)).state.llmTrace.length
        = k := by
      have := congrArg List.length hmap
      simpa using this
    constructor
    · omega
    · intro hcontra
      exfalso
      omega
  · rw [init_state_llmTrace, List.map_nil, List.nil_append] at hmap
    have hlen : (query_loop env mi (init_state ml mem0 u)).state.llmTrace.length
        = mi + 1 := by
      have := congrArg List.length hmap
      simpa using this
    exact ⟨by omega, fun _ => hmap⟩

/-- The model stub that requests the (budget-free) time tool on the first
invocation and then answers. -/
def timeToolCall : ToolCall :=
  { name := "get_current_time", argQuery := none, argTimezone := none,
    id := "call-9" }

def envTimeLoop : AgentEnv :=
  { llm := fun i =>
      if i = 1 then .ok { content := "final", tool_calls := [] }
      else .ok { content := "", tool_calls := [timeToolCall] },
    searchRun := fun _ => "result text",
    timeRun := fun _ => "time text",
    parse_text_tool_call := fun _ => none }

/-- Witness for C3 amended: with `max_iterations = 1` and a stub whose
single loop cycle performs the time tool, the run reaches the bound
`max_iterations + 1 = 2` invocations and the last one is tool-free. -/
theorem query_iteration_bound_witness :
    (query envTimeLoop 1 10 emptyMem "hi").1.llmTrace.length = 1 + 1 ∧
    (query envTimeLoop 1 10 emptyMem "hi").1.llmTrace.map Prod.fst
      = List.replicate 1 true ++ [false] :=
  ⟨rfl, (query_iteration_bound envTimeLoop 1 10 emptyMem "hi").2 rfl⟩

/-- The model stub that answers directly with empty content. -/
def envEmptyAnswer : AgentEnv :=
  { llm := fun _ => .ok { content := "", tool_calls := [] },
    searchRun := fun _ => "result text",
    timeRun := fun _ => "time text",
    parse_text_tool_call := fun _ => none }

/-- C4 counterexample: when the model's first response carries no tool call
and empty content, `query` returns the empty string — so `query` can return
empty. -/
theorem query_returns_empty_string :
    (query envEmptyAnswer 5 10 emptyMem "hello").2 = "" := rfl

/-- C4 amended: when the model capability raises, `query` does not
propagate the exception but returns the apology string `"Sorry, an error
occurred while processing your request: "` followed by the failure detail
(a non-empty string); however, when the model answers, `query` returns its
content verbatim, which may be empty (see the counterexample). -/
theorem query_error_reply_on_model_failure (env : AgentEnv) (mi ml : Nat)
    (mem0 : MemState) (u : String) (st : AgentState) (e : String)
    (h : query_loop env mi (init_state ml mem0 u) = .failed st e) :
    (query env mi ml mem0 u).2 = errorReply e ∧
    (query env mi ml mem0 u).2 ≠ "" := by
  rw [query_eq_of_failed h]
  refine ⟨rfl, ?_⟩
  intro hc
  have hlen := congrArg String.length hc
  rw [errorReply, String.length_append] at hlen
  have : ("Sorry, an error occurred while processing your request: ").length
      = 56 := by decide
  simp [this] at hlen

/-- The model stub that always raises. -/
def envModelFails : AgentEnv :=
  { llm := fun _ => .error "boom",
    searchRun := fun _ => "result text",
    timeRun := fun _ => "time text",
    parse_text_tool_call := fun _ => none }

/-- The loop outcome state of a run against `envModelFails`. -/
def stFail : AgentState :=
  (query_loop envModelFails 5 (init_state 10 emptyMem "hi")).state

/-- Witness for C4 amended: against the always-raising stub, the run fails
with detail `"boom"` and `query` returns the apology string. -/
theorem query_error_reply_witness :
    (query_loop envModelFails 5 (init_state 10 emptyMem "hi")
        = .failed stFail "boom") ∧
    ((query envModelFails 5 10 emptyMem "hi").2 = errorReply "boom" ∧
     (query envModelFails 5 10 emptyMem "hi").2 ≠ "") :=
  ⟨rfl, query_error_reply_on_model_failure envModelFails 5 10 emptyMem "hi"
    stFail "boom" rfl⟩

/-- C8: in every `query` call the user message is appended to memory (and
persisted, as a `user` record) before the first model invocation: whatever
the model does, the final memory extends `mem0 ++ [user message]`, the
persisted file contains the user record, and when already the first model
invocation raises, the memory is exactly the user-message append and
`query` returns the apology string. -/
theorem user_message_added_before_model (env : AgentEnv) (mi ml : Nat)
    (mem0 : MemState) (u : String) :
    (mem0.messages ++ [Msg.human u]) <+: (query env mi ml mem0 u).1.mem.messages ∧
    Record.mk Role.user u ∈ (query env mi ml mem0 u).1.mem.persisted ∧
    (∀ e, env.llm 0 = Except.error e →
      (query env mi ml mem0 u).1.mem = add_user_message mem0 u ∧
      (query env mi ml mem0 u).2 = errorReply e) := by
  have hpers : ∀ ms : List Msg, Msg.human u ∈ ms →
      Record.mk Role.user u ∈ save_memory ms := fun ms hms =>
    List.mem_filterMap.mpr ⟨Msg.human u, hms, rfl⟩
  have hmem : (query env mi ml mem0 u).1.mem = add_user_message mem0 u ∨
      ∃ a, (query env mi ml mem0 u).1.mem
        = add_ai_message (add_user_message mem0 u) a := by
    rw [query_fst]
    cases h : query_loop env mi (init_state ml mem0 u) with
    | answered st a =>
      right
      refine ⟨a, ?_⟩
      have := (query_loop_mem env mi (init_state ml mem0 u)).1 st a h
      rw [init_state_mem] at this
      exact this
    | failed st e =>
      left
      have := (query_loop_mem env mi (init_state ml mem0 u)).2 st e h
      rw [init_state_mem] at this
      exact this
  refine ⟨?_, ?_, ?_⟩
  · rcases hmem with h | ⟨a, h⟩ <;> rw [h]
    · exact List.prefix_refl _
    · show (mem0.messages ++ [Msg.human u]) <+:
        (mem0.messages ++ [Msg.human u]) ++ [Msg.ai a]
      exact List.prefix_append _ _
  · rcases hmem with h | ⟨a, h⟩ <;> rw [h]
    · exact hpers _ (by simp [add_user_message])
    · exact hpers _ (by simp [add_user_message])
  · intro e he
    have h0 : env.llm (init_state ml mem0 u).llmTrace.length = .error e := by
      rw [init_state_llmTrace]
      exact he
    obtain ⟨st', hq, hm⟩ :=
      query_loop_fail_first env mi (init_state ml mem0 u) e h0
    rw [query_eq_of_failed hq]
    exact ⟨hm.trans (init_state_mem ml mem0 u), rfl⟩

/-- Witness for C8 against the always-raising model stub. -/
theorem user_message_added_before_model_witness :
    (envModelFails.llm 0 = Except.error "boom") ∧
    ((emptyMem.messages ++ [Msg.human "hi"]
        <+: (query envModelFails 5 10 emptyMem "hi").1.mem.messages) ∧
     Record.mk Role.user "hi" ∈ (query envModelFails 5 10 emptyMem "hi").1.mem.persisted ∧
     (query envModelFails 5 10 emptyMem "hi").1.mem = add_user_message emptyMem "hi" ∧
     (query envModelFails 5 10 emptyMem "hi").2 = errorReply "boom") := by
  refine ⟨rfl, ?_⟩
  obtain ⟨h1, h2, h3⟩ :=
    user_message_added_before_model envModelFails 5 10 emptyMem "hi"
  exact ⟨h1, h2, (h3 "boom" rfl).1, (h3 "boom" rfl).2⟩

/-- C9: every `query` call that completes without an internal failure adds
exactly two entries to long-term memory — the user message followed by the
final assistant content — regardless of how many tool invocations occurred;
the persisted file is the serialization of exactly those entries, so the
intermediate tool-exchange messages (which go to the call's window only)
are never persisted. -/
theorem only_user_and_final_answer_persisted (env : AgentEnv) (mi ml : Nat)
    (mem0 : MemState) (u : String) (st : AgentState) (ans : String)
    (h : query_loop env mi (init_state ml mem0 u) = .answered st ans) :
    query env mi ml mem0 u = (st, ans) ∧
    st.mem.messages = mem0.messages ++ [Msg.human u, Msg.ai ans] ∧
    st.mem.persisted = save_memory (mem0.messages ++ [Msg.human u, Msg.ai ans]) := by
  have hm := (query_loop_mem env mi (init_state ml mem0 u)).1 st ans h
  rw [init_state_mem] at hm
  have hmsg : st.mem.messages = mem0.messages ++ [Msg.human u, Msg.ai ans] := by
    rw [hm]
    show (mem0.messages ++ [Msg.human u]) ++ [Msg.ai ans] = _
    simp
  refine ⟨query_eq_of_answered h, hmsg, ?_⟩
  rw [hm]
  show save_memory ((mem0.messages ++ [Msg.human u]) ++ [Msg.ai ans]) = _
  congr 1
  simp

/-- The loop outcome state of a run against `envTimeLoop` with the default
iteration ceiling: one time-tool cycle, then a direct answer. -/
def stAns : AgentState :=
  (query_loop envTimeLoop 5 (init_state 10 emptyMem "hi")).state

/-- Witness for C9: a run that executes the time tool once and then
answers `"final"`; memory receives exactly the user message and the final
answer. -/
theorem only_user_and_final_answer_persisted_witness :
    (query_loop envTimeLoop 5 (init_state 10 emptyMem "hi")
        = .answered stAns "final") ∧
    (query envTimeLoop 5 10 emptyMem "hi" = (stAns, "final") ∧
     stAns.mem.messages = emptyMem.messages ++ [Msg.human "hi", Msg.ai "final"] ∧
     stAns.mem.persisted
       = save_memory (emptyMem.messages ++ [Msg.human "hi", Msg.ai "final"])) :=
  ⟨rfl, only_user_and_final_answer_persisted envTimeLoop 5 10 emptyMem "hi"
    stAns "final" rfl⟩

/-- A structured tool call whose name matches no branch of the dispatch
loop: the scan falls through to the next list element. -/
def relevantTool (tc : ToolCall) : Bool :=
  decide (tc.name = "search_web" ∨ tc.name = "get_current_time")

/-- The decision taken by the tool-call scan as a function of the first
relevant (search or time) call of the list, if any. -/
def firstToolDecision (c : Nat) : Option ToolCall → ScanOutcome
  | none => .noTool
  | some tc =>
    if tc.name = "search_web" then
      if c < max_searches then .searchHit tc else .searchBlocked tc
    else .timeHit tc

lemma scan_eq_find (c : Nat) (l : List ToolCall) :
    scan_tool_calls c l = firstToolDecision c (l.find? relevantTool) := by
  induction l with
  | nil => rfl
  | cons t rest ih =>
    rw [scan_tool_calls]
    by_cases h1 : t.name = "search_web"
    · rw [List.find?_cons_of_pos _ (by simp [relevantTool, h1])]
      simp only [firstToolDecision, if_pos h1]
    · by_cases h3 : t.name = "get_current_time"
      · rw [List.find?_cons_of_pos _ (by simp [relevantTool, h3])]
        simp only [firstToolDecision, if_neg h1, if_pos h3]
      · rw [List.find?_cons_of_neg _ (by simp [relevantTool, h1, h3])]
        rw [if_neg h1, if_neg h3]
        exact ih

lemma dispatch_of_scan_searchHit (env : AgentEnv) (st : AgentState)
    (r : ModelResponse) (tc : ToolCall) (h : r.tool_calls ≠ [])
    (hs : scan_tool_calls st.search_count r.tool_calls = .searchHit tc) :
    (dispatch env st r).1.searchTrace = st.searchTrace ++ [tc.argQuery.getD ""] ∧
    (dispatch env st r).1.timeTrace = st.timeTrace := by
  unfold dispatch
  rw [if_pos h, hs]
  exact ⟨rfl, rfl⟩

lemma dispatch_of_scan_searchBlocked (env : AgentEnv) (st : AgentState)
    (r : ModelResponse) (tc : ToolCall) (h : r.tool_calls ≠ [])
    (hs : scan_tool_calls st.search_count r.tool_calls = .searchBlocked tc) :
    (dispatch env st r).1.searchTrace = st.searchTrace ∧
    (dispatch env st r).1.timeTrace = st.timeTrace := by
  unfold dispatch
  rw [if_pos h, hs]
  exact ⟨rfl, rfl⟩

lemma dispatch_of_scan_timeHit (env : AgentEnv) (st : AgentState)
    (r : ModelResponse) (tc : ToolCall) (h : r.tool_calls ≠ [])
    (hs : scan_tool_calls st.search_count r.tool_calls = .timeHit tc) :
    (dispatch env st r).1.searchTrace = st.searchTrace ∧
    (dispatch env st r).1.timeTrace
      = st.timeTrace ++ [tc.argTimezone.getD "Asia/Shanghai"] := by
  unfold dispatch
  rw [if_pos h, hs]
  exact ⟨rfl, rfl⟩

lemma dispatch_of_scan_noTool (env : AgentEnv) (st : AgentState)
    (r : ModelResponse) (h : r.tool_calls ≠ [])
    (hs : scan_tool_calls st.search_count r.tool_calls = .noTool) :
    (dispatch env st r).1.searchTrace = st.searchTrace ∧
    (dispatch env st r).1.timeTrace = st.timeTrace := by
  unfold dispatch
  rw [if_pos h, hs]
  exact ⟨rfl, rfl⟩

/-- `dispatch` executes at most one tool: either both traces are unchanged,
or exactly one of them gains exactly one entry. -/
lemma dispatch_traces (env : AgentEnv) (st : AgentState) (r : ModelResponse) :
    ((dispatch env st r).1.searchTrace = st.searchTrace ∧
     (dispatch env st r).1.timeTrace = st.timeTrace) ∨
    (∃ q, (dispatch env st r).1.searchTrace = st.searchTrace ++ [q] ∧
      (dispatch env st r).1.timeTrace = st.timeTrace) ∨
    (∃ tz, (dispatch env st r).1.searchTrace = st.searchTrace ∧
      (dispatch env st r).1.timeTrace = st.timeTrace ++ [tz]) := by
  unfold dispatch
  repeat' split
  all_goals first
    | exact Or.inl ⟨rfl, rfl⟩
    | exact Or.inr (Or.inl ⟨_, rfl, rfl⟩)
    | exact Or.inr (Or.inr ⟨_, rfl, rfl⟩)

/-- C10: when a model response carries structured tool calls, at most one
tool is executed for it, and which one is decided by the first `search_web`
or `get_current_time` entry of the list (entries with other names fall
through, later entries are discarded): an in-budget first `search_web`
executes one search with its `query` argument, an over-budget first
`search_web` executes no tool at all, a first `get_current_time` executes
the time tool with its `timezone` argument, and a list with no relevant
entry executes nothing. -/
theorem at_most_one_tool_per_response (env : AgentEnv) (st : AgentState)
    (r : ModelResponse) (h : r.tool_calls ≠ []) :
    ((dispatch env st r).1.searchTrace.length
        + (dispatch env st r).1.timeTrace.length
      ≤ st.searchTrace.length + st.timeTrace.length + 1) ∧
    (∀ tc, r.tool_calls.find? relevantTool = some tc →
      tc.name = "search_web" → st.search_count < max_searches →
      (dispatch env st r).1.searchTrace = st.searchTrace ++ [tc.argQuery.getD ""] ∧
      (dispatch env st r).1.timeTrace = st.timeTrace) ∧
    (∀ tc, r.tool_calls.find? relevantTool = some tc →
      tc.name = "search_web" → max_searches ≤ st.search_count →
      (dispatch env st r).1.searchTrace = st.searchTrace ∧
      (dispatch env st r).1.timeTrace = st.timeTrace) ∧
    (∀ tc, r.tool_calls.find? relevantTool = some tc →
      tc.name = "get_current_time" →
      (dispatch env st r).1.searchTrace = st.searchTrace ∧
      (dispatch env st r).1.timeTrace
        = st.timeTrace ++ [tc.argTimezone.getD "Asia/Shanghai"]) ∧
    (r.tool_calls.find? relevantTool = none →
      (dispatch env st r).1.searchTrace = st.searchTrace ∧
      (dispatch env st r).1.timeTrace = st.timeTrace) := by
  have hscan := scan_eq_find st.search_count r.tool_calls
  refine ⟨?_, ?_, ?_, ?_, ?_⟩
  · rcases dispatch_traces env st r with ⟨h1, h2⟩ | ⟨q, h1, h2⟩ | ⟨tz, h1, h2⟩ <;>
      rw [h1, h2] <;> simp [List.length_append] <;> omega
  · intro tc hf hname hlt
    rw [hf] at hscan
    simp only [firstToolDecision, if_pos hname, if_pos hlt] at hscan
    exact dispatch_of_scan_searchHit env st r tc h hscan
  · intro tc hf hname hge
    rw [hf] at hscan
    simp only [firstToolDecision, if_pos hname, if_neg (Nat.not_lt.mpr hge)]
      at hscan
    exact dispatch_of_scan_searchBlocked env st r tc h hscan
  · intro tc hf hname
    rw [hf] at hscan
    have hns : ¬tc.name = "search_web" := by
      rw [hname]
      decide
    simp only [firstToolDecision, if_neg hns] at hscan
    exact dispatch_of_scan_timeHit env st r tc h hscan
  · intro hf
    rw [hf] at hscan
    simp only [firstToolDecision] at hscan
    exact dispatch_of_scan_noTool env st r h hscan

/-- A tool call with a name the dispatch loop does not know. -/
def unknownToolCall : ToolCall :=
  { name := "other_tool", argQuery := none, argTimezone := none,
    id := "call-0" }

/-- A response carrying an unknown call, then a time call, then a search
call. -/
def mixedResponse : ModelResponse :=
  { content := "", tool_calls := [unknownToolCall, timeToolCall, searchToolCall] }

/-- The loop's initial state for a fresh memory, used as a concrete
dispatch state. -/
def stBase : AgentState := init_state 10 emptyMem "w"

/-- Witness for C10: on `mixedResponse` the scan skips the unknown call and
executes exactly the time call, discarding the later search call. -/
theorem at_most_one_tool_per_response_witness :
    (mixedResponse.tool_calls ≠ []) ∧
    mixedResponse.tool_calls.find? relevantTool = some timeToolCall ∧
    (dispatch envTimeLoop stBase mixedResponse).1.searchTrace
      = stBase.searchTrace ∧
    (dispatch envTimeLoop stBase mixedResponse).1.timeTrace
      = stBase.timeTrace ++ ["Asia/Shanghai"] :=
  ⟨by decide, rfl,
   ((at_most_one_tool_per_response envTimeLoop stBase mixedResponse
      (by decide)).2.2.2.1 timeToolCall rfl rfl).1,
   ((at_most_one_tool_per_response envTimeLoop stBase mixedResponse
      (by decide)).2.2.2.1 timeToolCall rfl rfl).2⟩

end SearchAgent
